import Mathlib

/-!
Shallow embedding of `plot/plot.py` (post-processing and plotting script for
HMC / multilevel-HMC lattice simulation output), together with theorems
checking the specification's claims about it.

Conventions of the embedding:
* IEEE floating-point scalars read from the data files are modelled by the
  type `F` (a rational payload plus the special values `inf`, `ninf`, `nan`);
  real-valued computation (square roots, powers, special functions) is
  modelled over `ℝ`.
* The hierarchical data file's attribute maps are modelled as functions
  `String → Option ℚ` (a key is "present" when the value is `some`).
* `scipy.special.ellipk` / `ellipe` are the complete elliptic integrals in
  scipy's parameter convention (the argument is m = k², the squared modulus).
* `scipy.optimize.curve_fit` is an external solver; its documented contract
  (return parameters minimising the weighted least-squares objective) is
  modelled by the predicate `IsCurveFitResult`.
-/

open Filter Topology MeasureTheory

/-! ## Floating-point model and observable sanitization (`append_observable`) -/

/-- Model of an IEEE double: a finite (rational) payload or a special value. -/
inductive F where
  | fin : ℚ → F
  | inf : F
  | ninf : F
  | nan : F
deriving DecidableEq

/-- `np.isinf`. -/
def F.isinf : F → Bool
  | .inf => true
  | .ninf => true
  | _ => false

/-- `np.isnan`. -/
def F.isnan : F → Bool
  | .nan => true
  | _ => false

/-- IEEE comparison `a > q` against a finite rational: `inf > q` is true,
`ninf > q` and `nan > q` are false. -/
def F.gtq : F → ℚ → Bool
  | .fin x, q => decide (q < x)
  | .inf, _ => true
  | _, _ => false

/-- IEEE comparison `|a| > q`: true for both infinities, false for `nan`. -/
def F.absGtq : F → ℚ → Bool
  | .fin x, q => decide (q < |x|)
  | .inf, _ => true
  | .ninf, _ => true
  | .nan, _ => false

/-- The sanity threshold `1e200` used by `append_observable`. -/
def bigQ : ℚ := 10 ^ 200

/-- Value branch of `append_observable` (plot.py lines 60-63):
`if np.isinf(temp) or temp > 1e200: append(-42) else: append(temp)`. -/
def sanitize_mean (mean : F) : F :=
  if mean.isinf || mean.gtq bigQ then F.fin (-42) else mean

/-- Payload of a finite float (never reached on the specials below). -/
def F.payload : F → ℚ
  | .fin q => q
  | _ => 0

/-- Error branch of `append_observable` (plot.py lines 70-73):
`if np.isinf(temp) or temp > 1e200 or np.isnan(temp): append(42)
else: append(np.sqrt(temp))`. -/
noncomputable def sanitize_error (variance : F) : ℝ :=
  if variance.isinf || variance.gtq bigQ || variance.isnan then 42
  else Real.sqrt (variance.payload : ℝ)

/-- Written from the spec's words (claim C2): value = mean unless mean is
infinite or `|mean| > 1e200`, in which case value = −42. -/
def spec_sanitized_value (mean : F) : F :=
  if mean.isinf || mean.absGtq bigQ then F.fin (-42) else mean

/-- Written from the spec's words, amended to the code's signed comparison:
value = mean unless mean is infinite or `mean > 1e200` (no absolute value). -/
def spec_sanitized_value_signed (mean : F) : F :=
  if mean.isinf || mean.gtq bigQ then F.fin (-42) else mean

/-- Written from the spec's words (claim C2): error = sqrt(variance) unless
variance is infinite, NaN, or `> 1e200`, in which case error = 42. -/
noncomputable def spec_sanitized_error (variance : F) : ℝ :=
  if variance.isinf || variance.isnan || variance.gtq bigQ then 42
  else Real.sqrt (variance.payload : ℝ)

/-! ## Checkpoint-suffix selection (`append_observable` and `info_plot`) -/

/-- Attribute key for the suffixed bootstrap mean checkpoint that
`append_observable` looks for. -/
def meanKeyFinal : String := "bootstrap_mean_10000_100000"

/-- Attribute key for the unsuffixed bootstrap mean. -/
def meanKeyBase : String := "bootstrap_mean"

/-- Attribute key for a differently-suffixed bootstrap mean checkpoint
(larger declared sample range than `meanKeyFinal`; never read by the code). -/
def meanKeyEarly : String := "bootstrap_mean_1000_100000"

/-- Mean selection in `append_observable` (plot.py lines 55-59): use the
`bootstrap_mean_10000_100000` attribute when present, otherwise the
unsuffixed `bootstrap_mean` attribute. -/
def selected_bootstrap_mean (attrs : String → Option ℚ) : Option ℚ :=
  match attrs meanKeyFinal with
  | some v => some v
  | none => attrs meanKeyBase

/-- A concrete attribute map holding two suffixed checkpoints and the
unsuffixed estimate. -/
def exAttrs : String → Option ℚ := fun k =>
  if k = meanKeyFinal then some 5
  else if k = meanKeyEarly then some 7
  else if k = meanKeyBase then some 3
  else none

/-- The checkpoint start indices scanned by `info_plot`
(`for i in range(1000, 100001, 1000)`). -/
def checkpoint_indices : List ℕ := (List.range 100).map (fun j => 1000 * j + 1000)

/-- `last_sufix` selection in `info_plot` (plot.py lines 246-254): the first
start index `i` (scanning `1000, 2000, …, 100000` in order) whose suffixed
attribute is present; `none` models the empty suffix fallback. -/
def last_sufix_index (present : ℕ → Bool) : Option ℕ :=
  checkpoint_indices.find? present

/-- A concrete presence function: only the checkpoint with start index 2000
is present. -/
def presentOnly2000 : ℕ → Bool := fun i => decide (i = 2000)

/-! ## Run records and the scaling-fit aggregation loop (`info_plot`) -/

/-- Metadata of one simulation run, as read by `info_plot`: the cycle-type
parameter `gamma`, the grid site count `len(level0["h"])`, the integrated
autocorrelation time with its bias and statistical error, whether the file
declares a `level1` group, and level-1 smoothing sweep counts. -/
structure RunRec where
  gamma : ℤ
  systemSize : ℕ
  tau : ℝ
  bias : ℝ
  statError : ℝ
  hasLevel1 : Bool
  nuPre1 : ℕ
  nuPost1 : ℕ

/-- The `nu_pre_level1` entry `info_plot` stores for a run: the declared
level-1 pre-smoothing count, or the sentinel `-1` when no `level1` group
exists (plot.py lines 280, 285). -/
def nuPreKey (r : RunRec) : ℤ :=
  if r.hasLevel1 then (r.nuPre1 : ℤ) else -1

/-- Label string for a single-level run (plot.py line 283). -/
def hmcLabel : String := "HMC"

/-- Label string for a multilevel run with `gamma > 1` (plot.py line 275). -/
def wLabel : String := "MLHMC  W-cycle"

/-- Label string for a multilevel run with `gamma ≤ 1` (plot.py line 277). -/
def vLabel : String := "MLHMC V-cycle"

/-- Run labelling in `info_plot` (plot.py lines 272-284). -/
def runLabel (r : RunRec) : String :=
  if r.hasLevel1 then (if 1 < r.gamma then wLabel else vLabel) else hmcLabel

/-- The `(x, y, y_with_bias, yerr)` vectors accumulated for one fit group. -/
structure FitData where
  x : List ℝ
  y : List ℝ
  ybias : List ℝ
  yerr : List ℝ

/-- Append one run's point: `x = sqrt(system_size)`, `y = tau`,
`y_with_bias = tau + bias`, `yerr = stat_error` (plot.py lines 357-360). -/
noncomputable def pushPoint (d : FitData) (r : RunRec) : FitData :=
  { x := d.x ++ [Real.sqrt (r.systemSize : ℝ)]
    y := d.y ++ [r.tau]
    ybias := d.ybias ++ [r.tau + r.bias]
    yerr := d.yerr ++ [r.statError] }

/-- Empty fit-group accumulator. -/
def emptyFit : FitData := ⟨[], [], [], []⟩

/-- One iteration of the aggregation loop of `info_plot`
(plot.py lines 342-386), acting on the pair
(single-level fit vectors, multilevel fit vectors):
* `nu_pre == -1` (single-level run): if `system_size < 33*33` append the
  point to the single-level vectors, and if additionally
  `system_size < 5*5` also append it to the multilevel vectors;
* otherwise (multilevel run): if `system_size < 33*33` append the point to
  the multilevel vectors. -/
noncomputable def stepRun (acc : FitData × FitData) (r : RunRec) : FitData × FitData :=
  if nuPreKey r = -1 then
    if r.systemSize < 33 * 33 then
      if r.systemSize < 5 * 5 then (pushPoint acc.1 r, pushPoint acc.2 r)
      else (pushPoint acc.1 r, acc.2)
    else acc
  else
    if r.systemSize < 33 * 33 then (acc.1, pushPoint acc.2 r) else acc

/-- The whole aggregation loop over a list of run records. -/
noncomputable def accumulateRuns (rs : List RunRec) : FitData × FitData :=
  rs.foldl stepRun (emptyFit, emptyFit)

/-- A multilevel run on a 10×10 grid (100 sites, not below 5×5). -/
def rML : RunRec :=
  { gamma := 1, systemSize := 100, tau := 1, bias := 0, statError := 1
    hasLevel1 := true, nuPre1 := 1, nuPost1 := 1 }

/-- A single-level run on a 4×4 grid (16 sites, below 5×5). -/
def rSmall : RunRec :=
  { gamma := 1, systemSize := 16, tau := 1, bias := 0, statError := 1
    hasLevel1 := false, nuPre1 := 0, nuPost1 := 0 }

/-- A single-level run on a 16×16 grid. -/
def rH : RunRec :=
  { gamma := 1, systemSize := 256, tau := 1, bias := 0, statError := 1
    hasLevel1 := false, nuPre1 := 0, nuPost1 := 0 }

/-- A multilevel run with `gamma = 3` (W-cycle). -/
def rW : RunRec :=
  { gamma := 3, systemSize := 256, tau := 1, bias := 0, statError := 1
    hasLevel1 := true, nuPre1 := 1, nuPost1 := 1 }

/-- A multilevel run with `gamma = 1` (V-cycle). -/
def rV : RunRec :=
  { gamma := 1, systemSize := 256, tau := 1, bias := 0, statError := 1
    hasLevel1 := true, nuPre1 := 1, nuPost1 := 1 }

/-! ## Power-law fit (`fit_function`, `curve_fit`, reduced chi-square) -/

/-- `fit_function(x, a, z) = a * x ** z` (plot.py lines 23-24). -/
noncomputable def fit_function (x a z : ℝ) : ℝ := a * x ^ z

/-- Weighted residual sum of squares `Σ ((y_i − a·x_i^z) / yerr_i)²` over a
list of `(x, y, yerr)` points: the objective of `curve_fit` with `sigma`
weighting, and the numerator of the chi-square at plot.py lines 394-396. -/
noncomputable def weightedRSS (pts : List (ℝ × ℝ × ℝ)) (a z : ℝ) : ℝ :=
  (pts.map (fun p => ((p.2.1 - fit_function p.1 a z) / p.2.2) ^ 2)).sum

/-- The reduced chi-square computed at plot.py lines 394-396:
the weighted residual sum of squares divided by `len(x) - len(popt)`
(with `len(popt) = 2`). -/
noncomputable def chi2 (pts : List (ℝ × ℝ × ℝ)) (a z : ℝ) : ℝ :=
  weightedRSS pts a z / ((pts.length : ℝ) - 2)

/-- Written from the spec's words: reduced chi-square = weighted residual sum
of squares divided by `(n_points − 2)`. -/
noncomputable def reduced_chi_square_spec (pts : List (ℝ × ℝ × ℝ)) (a z : ℝ) : ℝ :=
  weightedRSS pts a z / ((pts.length : ℝ) - 2)

/-- Modelled from the spec: `scipy.optimize.curve_fit` (external solver, not
part of this repository) is specified as returning parameters `(a, z)` that
minimise the weighted least-squares objective `Σ ((y_i − a·x_i^z)/yerr_i)²`. -/
def IsCurveFitResult (pts : List (ℝ × ℝ × ℝ)) (p : ℝ × ℝ) : Prop :=
  ∀ q : ℝ × ℝ, weightedRSS pts p.1 p.2 ≤ weightedRSS pts q.1 q.2

/-- Synthetic noise-free data `y = 3 · x^1.5` on three points. -/
def pts3 : List (ℝ × ℝ × ℝ) := [(1, 3, 1), (4, 24, 1), (9, 81, 1)]

/-- Degenerate two-point input (fewer than 3 points), exactly fit by
`y = 3 · x^1.5`. -/
def pts2 : List (ℝ × ℝ × ℝ) := [(1, 3, 1), (4, 24, 1)]

/-! ## Exact-solution library -/

/-- `magnetization_exact` (plot.py lines 27-31): 0 below the hard-coded
threshold, otherwise `(1 - 1/sinh(2β)^4)^(1/8)`. -/
noncomputable def magnetization_exact (beta : ℝ) : ℝ :=
  if beta < 0.440686793509772 then 0
  else (1 - 1 / Real.sinh (2 * beta) ^ 4) ^ ((1 : ℝ) / 8)

/-- Complete elliptic integral of the first kind in scipy's parameter
convention: `ellipk m = ∫_0^{π/2} dθ / sqrt(1 − m sin²θ)`
(models `scipy.special.ellipk`). -/
noncomputable def ellipk (m : ℝ) : ℝ :=
  ∫ θ in (0 : ℝ)..(Real.pi / 2), (Real.sqrt (1 - m * Real.sin θ ^ 2))⁻¹

/-- Complete elliptic integral of the second kind in scipy's parameter
convention: `ellipe m = ∫_0^{π/2} sqrt(1 − m sin²θ) dθ`
(models `scipy.special.ellipe`). -/
noncomputable def ellipe (m : ℝ) : ℝ :=
  ∫ θ in (0 : ℝ)..(Real.pi / 2), Real.sqrt (1 - m * Real.sin θ ^ 2)

/-- `ene_exact` (plot.py lines 34-39), with the local names `J2`, `k`, `eK`,
`answer` inlined:
`-J * cosh(2J) * (1 + (2/π)(2 tanh(2J)² − 1) K(k)) / sinh(2J)` where
`k = 4 sinh(2J)² / cosh(2J)⁴`. -/
noncomputable def ene_exact (J : ℝ) : ℝ :=
  -J * Real.cosh (2 * J) *
      (1 + 2 / Real.pi * (2 * Real.tanh (2 * J) ^ 2 - 1) *
        ellipk (4 * Real.sinh (2 * J) ^ 2 / Real.cosh (2 * J) ^ 4)) /
    Real.sinh (2 * J)

/-- `specific_heat_exact` (plot.py lines 42-49), with the local names `B2`,
`k`, `Kk`, `Ek`, `kp`, `answer` inlined. -/
noncomputable def specific_heat_exact (beta : ℝ) : ℝ :=
  2 * beta ^ 2 / Real.pi / Real.tanh (2 * beta) ^ 2 *
    (2 * ellipk (4 * Real.sinh (2 * beta) ^ 2 / Real.cosh (2 * beta) ^ 4) -
      2 * ellipe (4 * Real.sinh (2 * beta) ^ 2 / Real.cosh (2 * beta) ^ 4) -
      (1 - (2 * Real.tanh (2 * beta) ^ 2 - 1)) *
        (Real.pi / 2 +
          (2 * Real.tanh (2 * beta) ^ 2 - 1) *
            ellipk (4 * Real.sinh (2 * beta) ^ 2 / Real.cosh (2 * beta) ^ 4)))

/-- Written from the spec's words (claim C6): internal energy
`−J·cosh(2J)·(1 + (2/π)(2·tanh(2J)² − 1)·K(k)) / sinh(2J)` with
`k = 4·sinh(2J)²/cosh(2J)⁴`. -/
noncomputable def internal_energy_exact_spec (J : ℝ) : ℝ :=
  let k := 4 * Real.sinh (2 * J) ^ 2 / Real.cosh (2 * J) ^ 4;
  -J * Real.cosh (2 * J) * (1 + 2 / Real.pi * (2 * Real.tanh (2 * J) ^ 2 - 1) * ellipk k) /
    Real.sinh (2 * J)

/-- Written from the spec's words (claim C5): let `K`, `E` be the elliptic
integrals at `k = 4·sinh(2β)²/cosh(2β)⁴`, `kp = 2·tanh(2β)²−1`; return
`(2β²/π)/tanh(2β)² · [2K − 2E − (1−kp)(π/2 + kp·K)]`. -/
noncomputable def specific_heat_exact_spec (beta : ℝ) : ℝ :=
  let k := 4 * Real.sinh (2 * beta) ^ 2 / Real.cosh (2 * beta) ^ 4;
  let K := ellipk k;
  let E := ellipe k;
  let kp := 2 * Real.tanh (2 * beta) ^ 2 - 1;
  2 * beta ^ 2 / Real.pi / Real.tanh (2 * beta) ^ 2 *
    (2 * K - 2 * E - (1 - kp) * (Real.pi / 2 + kp * K))

/-! ## Helper lemmas -/

theorem nuPreKey_eq_neg_one_iff (r : RunRec) : nuPreKey r = -1 ↔ r.hasLevel1 = false := by
  unfold nuPreKey
  cases h : r.hasLevel1 <;> simp [h]

theorem rss_nonneg (pts : List (ℝ × ℝ × ℝ)) (a z : ℝ) : 0 ≤ weightedRSS pts a z := by
  unfold weightedRSS
  apply List.sum_nonneg
  intro x hx
  simp only [List.mem_map] at hx
  obtain ⟨p, -, rfl⟩ := hx
  positivity

theorem sq_rpow_three_half (c : ℝ) (hc : 0 ≤ c) :
    ((c ^ (2 : ℕ) : ℝ)) ^ ((3 : ℝ) / 2) = c ^ (3 : ℕ) := by
  rw [← Real.rpow_natCast c 2, ← Real.rpow_mul hc,
    show ((2 : ℕ) : ℝ) * ((3 : ℝ) / 2) = ((3 : ℕ) : ℝ) by norm_num, Real.rpow_natCast]

theorem four_rpow_three_half : (4 : ℝ) ^ ((3 : ℝ) / 2) = 8 := by
  have h := sq_rpow_three_half 2 (by norm_num)
  norm_num at h
  exact h

theorem nine_rpow_three_half : (9 : ℝ) ^ ((3 : ℝ) / 2) = 27 := by
  have h := sq_rpow_three_half 3 (by norm_num)
  norm_num at h
  exact h

theorem rss_pts3_eq_zero : weightedRSS pts3 3 ((3 : ℝ) / 2) = 0 := by
  simp [weightedRSS, pts3, fit_function, Real.one_rpow, four_rpow_three_half,
    nine_rpow_three_half]
  norm_num

theorem rss_pts2_eq_zero : weightedRSS pts2 3 ((3 : ℝ) / 2) = 0 := by
  simp [weightedRSS, pts2, fit_function, Real.one_rpow, four_rpow_three_half]
  norm_num

theorem find_first_le {p : ℕ → Bool} :
    ∀ {l : List ℕ}, l.Pairwise (· ≤ ·) → ∀ {j : ℕ}, l.find? p = some j →
      ∀ k ∈ l, p k = true → j ≤ k := by
  intro l
  induction l with
  | nil => intro _ j hj; simp at hj
  | cons a t ih =>
    intro hpw j hj k hk hpk
    rw [List.pairwise_cons] at hpw
    by_cases hpa : p a = true
    · rw [List.find?_cons_of_pos t hpa] at hj
      injection hj with hj
      subst hj
      rcases List.mem_cons.mp hk with rfl | hk'
      · exact le_refl _
      · exact hpw.1 k hk'
    · rw [List.find?_cons_of_neg t hpa] at hj
      rcases List.mem_cons.mp hk with rfl | hk'
      · exact absurd hpk hpa
      · exact ih hpw.2 hj k hk' hpk

theorem checkpoint_indices_sorted : checkpoint_indices.Pairwise (· ≤ ·) := by decide

/-! ## Claim theorems -/

/-- Claim C1, counterexample: a run in the multilevel class (it declares a
`level1` group) whose site count 100 = 10×10 is not below 5×5 nevertheless
contributes a point to the multilevel fit vectors, so multilevel runs are NOT
filtered by the 5×5 cutoff the claim states. -/
theorem claim_C1_counterexample :
    (accumulateRuns [rML]).2.x.length = 1 ∧ ¬ (rML.systemSize < 5 * 5) := by
  constructor
  · norm_num [accumulateRuns, stepRun, nuPreKey, rML, pushPoint, emptyFit]
  · norm_num [rML]

/-- Claim C1, amended: in the aggregation loop, a single-level run
contributes a point to the single-level fit vectors iff its site count is
below 33×33; the multilevel fit vectors gain a point from a multilevel run
iff its site count is below 33×33, and additionally from a single-level run
iff its site count is below 5×5. -/
theorem claim_C1_amended :
    ∀ (acc : FitData × FitData) (r : RunRec),
      (stepRun acc r).1.x.length =
        acc.1.x.length + (if r.hasLevel1 = false ∧ r.systemSize < 33 * 33 then 1 else 0) ∧
      (stepRun acc r).2.x.length =
        acc.2.x.length +
          (if (r.hasLevel1 = true ∧ r.systemSize < 33 * 33) ∨
              (r.hasLevel1 = false ∧ r.systemSize < 5 * 5) then 1 else 0) := by
  intro acc r
  unfold stepRun
  by_cases h : r.hasLevel1
  · have hkey : ¬ (nuPreKey r = -1) := by
      rw [nuPreKey_eq_neg_one_iff]
      simp [h]
    rw [if_neg hkey]
    by_cases h33 : r.systemSize < 33 * 33
    · rw [if_pos h33]; simp [pushPoint, h, h33]
    · rw [if_neg h33]; simp [h, h33]
  · have hb : r.hasLevel1 = false := by simpa using h
    have hkey : nuPreKey r = -1 := (nuPreKey_eq_neg_one_iff r).mpr hb
    rw [if_pos hkey]
    by_cases h33 : r.systemSize < 33 * 33
    · rw [if_pos h33]
      by_cases h5 : r.systemSize < 5 * 5
      · rw [if_pos h5]; simp [pushPoint, hb, h33, h5]
      · rw [if_neg h5]; simp [pushPoint, hb, h33, h5]
    · rw [if_neg h33]
      have h5 : ¬ r.systemSize < 5 * 5 := by omega
      simp [hb, h33, h5]

/-- Claim C2, counterexample: for the finite mean −2·10²⁰⁰ (so |mean| > 1e200
but mean ≤ 1e200), the code's sanitized value is the mean itself, not the
sentinel −42 demanded by the claim's `|mean| > 1e200` condition. -/
theorem claim_C2_counterexample :
    sanitize_mean (F.fin (-(2 * 10 ^ 200))) = F.fin (-(2 * 10 ^ 200)) ∧
    spec_sanitized_value (F.fin (-(2 * 10 ^ 200))) = F.fin (-42) ∧
    F.fin (-(2 * 10 ^ 200)) ≠ F.fin (-42) := by
  refine ⟨?_, ?_, ?_⟩
  · have hc : F.gtq (F.fin (-(2 * 10 ^ 200))) bigQ = false := by
      simp only [F.gtq, bigQ, decide_eq_false_iff_not]
      norm_num
    simp [sanitize_mean, F.isinf, hc]
  · have hc : F.absGtq (F.fin (-(2 * 10 ^ 200))) bigQ = true := by
      simp only [F.absGtq, bigQ, decide_eq_true_eq]
      rw [abs_of_nonpos (by norm_num)]
      norm_num
    simp [spec_sanitized_value, F.isinf, hc]
  · intro h
    injection h with h
    norm_num at h

/-- Claim C2, amended: the sanitized value equals the mean unless the mean is
infinite or `mean > 1e200` (a signed comparison: large-magnitude negative
finite means pass through unchanged); the sanitized error equals
sqrt(variance) unless the variance is infinite, NaN, or `> 1e200`, in which
case it is the sentinel 42; and the three concrete instances of the claim
hold: mean = +inf ↦ −42, variance = NaN ↦ 42, (mean, variance) = (0.5, 0.04)
↦ (0.5, 0.2). -/
theorem claim_C2_amended :
    (∀ m : F, sanitize_mean m = spec_sanitized_value_signed m) ∧
    (∀ v : F, sanitize_error v = spec_sanitized_error v) ∧
    sanitize_mean F.inf = F.fin (-42) ∧
    sanitize_error F.nan = 42 ∧
    sanitize_mean (F.fin (1 / 2)) = F.fin (1 / 2) ∧
    sanitize_error (F.fin (1 / 25)) = 1 / 5 := by
  refine ⟨fun m => rfl, ?_, rfl, rfl, ?_, ?_⟩
  · intro v
    cases v <;> simp [sanitize_error, spec_sanitized_error, F.isinf, F.isnan, F.gtq]
  · simp only [sanitize_mean, F.isinf, F.gtq, bigQ, Bool.false_or]
    norm_num
  · have hsq : ((1 / 25 : ℚ) : ℝ) = (1 / 5 : ℝ) ^ 2 := by norm_num
    simp only [sanitize_error, F.isinf, F.isnan, F.gtq, bigQ, Bool.or_false,
      Bool.false_or, F.payload]
    rw [show (decide ((10 : ℚ) ^ 200 < 1 / 25)) = false by norm_num]
    simp only [Bool.false_eq_true, if_false]
    rw [hsq, Real.sqrt_sq (by norm_num)]

/-- Claim C3, counterexample: an attribute map holding checkpoints
`_1000_100000` (value 7, declared sample range 99000) and `_10000_100000`
(value 5, declared sample range 90000): `append_observable` uses the
hard-coded `_10000_100000` key, value 5, not the value 7 stored at the
checkpoint with the larger declared sample range. -/
theorem claim_C3_counterexample :
    selected_bootstrap_mean exAttrs = some 5 ∧
    exAttrs meanKeyEarly = some 7 ∧
    (100000 - 10000 : ℕ) < 100000 - 1000 ∧ (5 : ℚ) ≠ 7 := by
  refine ⟨by decide, by decide, by norm_num, by norm_num⟩

/-- Claim C3, amended: in `info_plot`, the checkpoint used is the present one
with the smallest start index — equivalently the largest declared sample
range `100000 − i` — with fallback to the unsuffixed attribute when no
suffixed checkpoint is present; in `append_observable`, only the fixed
checkpoint key `bootstrap_mean_10000_100000` is preferred (regardless of any
other suffixed checkpoints), with fallback to the unsuffixed estimate. -/
theorem claim_C3_amended :
    (∀ (present : ℕ → Bool) (j : ℕ), last_sufix_index present = some j →
        present j = true ∧
          ∀ k ∈ checkpoint_indices, present k = true → 100000 - k ≤ 100000 - j) ∧
    (∀ present : ℕ → Bool, last_sufix_index present = none →
        ∀ k ∈ checkpoint_indices, present k = false) ∧
    (∀ (attrs : String → Option ℚ) (v : ℚ), attrs meanKeyFinal = some v →
        selected_bootstrap_mean attrs = some v) ∧
    (∀ attrs : String → Option ℚ, attrs meanKeyFinal = none →
        selected_bootstrap_mean attrs = attrs meanKeyBase) := by
  refine ⟨?_, ?_, ?_, ?_⟩
  · intro present j hj
    refine ⟨List.find?_some hj, ?_⟩
    intro k hk hpk
    exact Nat.sub_le_sub_left (find_first_le checkpoint_indices_sorted hj k hk hpk) 100000
  · intro present h k hk
    have hnk := List.find?_eq_none.mp h k hk
    simpa using hnk
  · intro attrs v hv
    simp [selected_bootstrap_mean, hv]
  · intro attrs h
    simp [selected_bootstrap_mean, h]

/-- Claim C3 witness: applying the amended claim to a concrete presence
function where only the checkpoint with start index 2000 exists. -/
theorem claim_C3_witness : presentOnly2000 2000 = true :=
  (claim_C3_amended.1 presentOnly2000 2000 (by decide)).1

/-- Claim C7: a run with no `level1` group is labelled "HMC" and gets the
single-level sentinel key −1; a run with a `level1` group never gets the
sentinel, is labelled "MLHMC  W-cycle" when `gamma > 1` and "MLHMC V-cycle"
when `gamma = 1`; and the cycle-type parameter `gamma` never changes how the
aggregation step assigns a run to the fit groups. -/
theorem claim_C7 :
    (∀ r : RunRec, r.hasLevel1 = false → runLabel r = hmcLabel ∧ nuPreKey r = -1) ∧
    (∀ r : RunRec, r.hasLevel1 = true → nuPreKey r ≠ -1) ∧
    (∀ r : RunRec, r.hasLevel1 = true → 1 < r.gamma → runLabel r = wLabel) ∧
    (∀ r : RunRec, r.hasLevel1 = true → r.gamma = 1 → runLabel r = vLabel) ∧
    (∀ (acc : FitData × FitData) (r : RunRec) (g : ℤ),
        stepRun acc { r with gamma := g } = stepRun acc r) := by
  refine ⟨?_, ?_, ?_, ?_, ?_⟩
  · intro r h
    exact ⟨by simp [runLabel, h], (nuPreKey_eq_neg_one_iff r).mpr h⟩
  · intro r h hkey
    have h2 := (nuPreKey_eq_neg_one_iff r).mp hkey
    rw [h] at h2
    simp at h2
  · intro r h hg
    simp [runLabel, h, hg]
  · intro r h hg
    simp [runLabel, h, hg]
  · intro acc r g
    rfl

/-- Claim C9: the code performs no degenerate-input check: on the two-point
input `pts2` (fewer than 3 points) the weighted least-squares objective is
exactly minimised by the coefficients (a, z) = (3, 3/2) — so the modelled
solver returns coefficients, silently — while the reduced chi-square
denominator `len(x) - len(popt)` is zero. -/
theorem claim_C9 :
    IsCurveFitResult pts2 ((3 : ℝ), (3 : ℝ) / 2) ∧ ((pts2.length : ℝ) - 2 = 0) := by
  constructor
  · intro q
    show weightedRSS pts2 3 ((3 : ℝ) / 2) ≤ weightedRSS pts2 q.1 q.2
    rw [rss_pts2_eq_zero]
    exact rss_nonneg pts2 q.1 q.2
  · simp [pts2]

/-- Claim C10: in the aggregation loop, a single-level run (no `level1`
group) with site count below 5×5 = 25 has its point appended to BOTH the
single-level fit vectors and the multilevel fit vectors. -/
theorem claim_C10 :
    ∀ (acc : FitData × FitData) (r : RunRec),
      r.hasLevel1 = false → r.systemSize < 5 * 5 →
      stepRun acc r = (pushPoint acc.1 r, pushPoint acc.2 r) := by
  intro acc r h h5
  have h33 : r.systemSize < 33 * 33 := by omega
  have hkey : nuPreKey r = -1 := (nuPreKey_eq_neg_one_iff r).mpr h
  simp [stepRun, hkey, h33, h5]

/-- Claim C10 witness: the concrete 4×4 single-level run `rSmall` is pushed
to both fit groups. -/
theorem claim_C10_witness :
    stepRun (emptyFit, emptyFit) rSmall = (pushPoint emptyFit rSmall, pushPoint emptyFit rSmall) :=
  claim_C10 (emptyFit, emptyFit) rSmall rfl (by norm_num [rSmall])

/-- Claim C8: the reduced chi-square computed by the code is the weighted
residual sum of squares divided by `(n_points − 2)`; and on the synthetic
noise-free three-point data `y = 3·x^1.5` every minimiser of the weighted
least-squares objective is exactly `(a, z) = (3, 3/2)` with reduced
chi-square 0. -/
theorem claim_C8 :
    (∀ (pts : List (ℝ × ℝ × ℝ)) (a z : ℝ), chi2 pts a z = reduced_chi_square_spec pts a z) ∧
    (∀ p : ℝ × ℝ, IsCurveFitResult pts3 p →
      p = ((3 : ℝ), (3 : ℝ) / 2) ∧ chi2 pts3 p.1 p.2 = 0) := by
  constructor
  · intro pts a z
    rfl
  · rintro ⟨a, z⟩ hp
    have h0 : weightedRSS pts3 a z ≤ 0 :=
      le_trans (hp ((3 : ℝ), (3 : ℝ) / 2)) (le_of_eq rss_pts3_eq_zero)
    have hval : weightedRSS pts3 a z =
        (3 - a) ^ 2 + ((24 - a * (4 : ℝ) ^ z) ^ 2 + (81 - a * (9 : ℝ) ^ z) ^ 2) := by
      simp [weightedRSS, pts3, fit_function, Real.one_rpow]
    rw [hval] at h0
    have s1 := sq_nonneg (3 - a)
    have s2 := sq_nonneg (24 - a * (4 : ℝ) ^ z)
    have s3 := sq_nonneg (81 - a * (9 : ℝ) ^ z)
    have e1 : (3 - a) ^ 2 = 0 := le_antisymm (by linarith) s1
    have ha : a = 3 := by
      have := sq_eq_zero_iff.mp e1
      linarith
    have e2 : (24 - a * (4 : ℝ) ^ z) ^ 2 = 0 := le_antisymm (by linarith) s2
    have h4z : (4 : ℝ) ^ z = 8 := by
      have h2 := sq_eq_zero_iff.mp e2
      rw [ha] at h2
      linarith
    have hz : z = 3 / 2 := by
      have hlog := congrArg Real.log h4z
      rw [Real.log_rpow (by norm_num : (0 : ℝ) < 4)] at hlog
      have l4 : Real.log 4 = 2 * Real.log 2 := by
        rw [show (4 : ℝ) = 2 ^ (2 : ℕ) by norm_num, Real.log_pow]
        push_cast
        ring
      have l8 : Real.log 8 = 3 * Real.log 2 := by
        rw [show (8 : ℝ) = 2 ^ (3 : ℕ) by norm_num, Real.log_pow]
        push_cast
        ring
      have hl2 : Real.log 2 ≠ 0 := ne_of_gt (Real.log_pos (by norm_num))
      rw [l4, l8] at hlog
      have h2 : (z * 2) * Real.log 2 = 3 * Real.log 2 := by linear_combination hlog
      have h3 := mul_right_cancel₀ hl2 h2
      linarith
    subst ha
    subst hz
    refine ⟨rfl, ?_⟩
    show chi2 pts3 3 ((3 : ℝ) / 2) = 0
    unfold chi2
    rw [rss_pts3_eq_zero]
    simp

/-- Claim C8 witness: `(3, 3/2)` itself is a minimiser of the objective on
the synthetic data, and the claim's conclusion evaluates there. -/
theorem claim_C8_witness :
    ((3 : ℝ), (3 : ℝ) / 2) = ((3 : ℝ), (3 : ℝ) / 2) ∧
      chi2 pts3 ((3 : ℝ), (3 : ℝ) / 2).1 ((3 : ℝ), (3 : ℝ) / 2).2 = 0 :=
  claim_C8.2 ((3 : ℝ), (3 : ℝ) / 2) (fun q => by
    show weightedRSS pts3 3 ((3 : ℝ) / 2) ≤ weightedRSS pts3 q.1 q.2
    rw [rss_pts3_eq_zero]
    exact rss_nonneg pts3 q.1 q.2)

/-- Claim C5: `specific_heat_exact` agrees with the spec's closed form
(the elliptic integrals taken at the parameter `k = 4·sinh(2β)²/cosh(2β)⁴`,
`kp = 2·tanh(2β)²−1`). -/
theorem claim_C5 : ∀ beta : ℝ, specific_heat_exact beta = specific_heat_exact_spec beta :=
  fun _ => rfl

theorem ellipk_lower_bound {m : ℝ} (hm0 : 0 ≤ m) (hm1 : m < 1) : Real.pi / 2 ≤ ellipk m := by
  have hpos : ∀ θ : ℝ, 0 < 1 - m * Real.sin θ ^ 2 := by
    intro θ
    have hs : Real.sin θ ^ 2 ≤ 1 := Real.sin_sq_le_one θ
    nlinarith [sq_nonneg (Real.sin θ)]
  have hcont : Continuous fun θ : ℝ => (Real.sqrt (1 - m * Real.sin θ ^ 2))⁻¹ := by
    apply Continuous.inv₀
    · exact Real.continuous_sqrt.comp (by continuity)
    · intro θ
      exact ne_of_gt (Real.sqrt_pos.mpr (hpos θ))
  have hone : IntervalIntegrable (fun _ : ℝ => (1 : ℝ)) volume 0 (Real.pi / 2) :=
    intervalIntegrable_const
  have hint : IntervalIntegrable (fun θ : ℝ => (Real.sqrt (1 - m * Real.sin θ ^ 2))⁻¹)
      volume 0 (Real.pi / 2) := hcont.intervalIntegrable 0 (Real.pi / 2)
  have hab : (0 : ℝ) ≤ Real.pi / 2 := by positivity
  have hpt : ∀ θ ∈ Set.Icc (0 : ℝ) (Real.pi / 2),
      (1 : ℝ) ≤ (Real.sqrt (1 - m * Real.sin θ ^ 2))⁻¹ := by
    intro θ _
    have h1 : Real.sqrt (1 - m * Real.sin θ ^ 2) ≤ 1 :=
      Real.sqrt_le_one.mpr (by nlinarith [sq_nonneg (Real.sin θ)])
    have h2 : 0 < Real.sqrt (1 - m * Real.sin θ ^ 2) := Real.sqrt_pos.mpr (hpos θ)
    calc (1 : ℝ) = 1⁻¹ := by norm_num
      _ ≤ (Real.sqrt (1 - m * Real.sin θ ^ 2))⁻¹ := inv_le_inv_of_le h2 h1
  have hmono := intervalIntegral.integral_mono_on hab hone hint hpt
  calc Real.pi / 2 = ∫ _ in (0 : ℝ)..(Real.pi / 2), (1 : ℝ) := by
        rw [intervalIntegral.integral_const]
        simp
    _ ≤ ellipk m := hmono

theorem ene_exact_one_lt : ene_exact 1 < -1.5 := by
  have hE : (4 : ℝ) ≤ Real.exp 2 := by
    have h1 : (2 : ℝ) ≤ Real.exp 1 := by
      have := Real.add_one_le_exp (1 : ℝ)
      linarith
    have h2 : Real.exp 2 = Real.exp 1 * Real.exp 1 := by
      rw [← Real.exp_add]
      norm_num
    nlinarith
  have hEpos : (0 : ℝ) < Real.exp 2 := Real.exp_pos 2
  have hinv : (Real.exp 2)⁻¹ ≤ 1 / 4 := by
    rw [inv_eq_one_div, div_le_div_iff hEpos (by norm_num)]
    linarith
  have hs : (15 / 8 : ℝ) ≤ Real.sinh 2 := by
    rw [Real.sinh_eq, Real.exp_neg]
    linarith
  have hspos : (0 : ℝ) < Real.sinh 2 := by linarith
  have hcpos : (0 : ℝ) < Real.cosh 2 := Real.cosh_pos 2
  have hc2 : Real.cosh 2 ^ 2 = Real.sinh 2 ^ 2 + 1 := by
    rw [Real.cosh_sq]
  have hslecosh : Real.sinh 2 ≤ Real.cosh 2 := le_of_lt (Real.sinh_lt_cosh 2)
  have hm0 : (0 : ℝ) ≤ 4 * Real.sinh 2 ^ 2 / Real.cosh 2 ^ 4 := by positivity
  have hm1 : 4 * Real.sinh 2 ^ 2 / Real.cosh 2 ^ 4 < 1 := by
    rw [div_lt_one (by positivity)]
    have hc4 : Real.cosh 2 ^ 4 = (Real.sinh 2 ^ 2 + 1) ^ 2 := by
      rw [← hc2]
      ring
    rw [hc4]
    have hs2 : (225 / 64 : ℝ) ≤ Real.sinh 2 ^ 2 := by nlinarith [hs, hspos]
    nlinarith [hs2, mul_pos (by linarith : (0 : ℝ) < Real.sinh 2 ^ 2 - 1)
      (by linarith : (0 : ℝ) < Real.sinh 2 ^ 2 - 1)]
  have hK := ellipk_lower_bound hm0 hm1
  have hpipos := Real.pi_pos
  have htanh : Real.tanh 2 = Real.sinh 2 / Real.cosh 2 := Real.tanh_eq_sinh_div_cosh 2
  have hkp : (0.55 : ℝ) ≤ 2 * Real.tanh 2 ^ 2 - 1 := by
    rw [htanh, div_pow]
    have hcsq : (0 : ℝ) < Real.cosh 2 ^ 2 := by positivity
    have key : (1.55 : ℝ) * Real.cosh 2 ^ 2 ≤ 2 * Real.sinh 2 ^ 2 := by
      rw [hc2]
      nlinarith [hs]
    have h2 : (1.55 : ℝ) ≤ 2 * (Real.sinh 2 ^ 2 / Real.cosh 2 ^ 2) := by
      rw [← mul_div_assoc]
      exact (le_div_iff hcsq).mpr key
    linarith
  have hkp0 : (0 : ℝ) ≤ 2 * Real.tanh 2 ^ 2 - 1 := by linarith
  have hterm : 2 * Real.tanh 2 ^ 2 - 1 ≤
      2 / Real.pi * (2 * Real.tanh 2 ^ 2 - 1) *
        ellipk (4 * Real.sinh 2 ^ 2 / Real.cosh 2 ^ 4) := by
    have h1 : 2 / Real.pi * (2 * Real.tanh 2 ^ 2 - 1) * (Real.pi / 2) ≤
        2 / Real.pi * (2 * Real.tanh 2 ^ 2 - 1) *
          ellipk (4 * Real.sinh 2 ^ 2 / Real.cosh 2 ^ 4) :=
      mul_le_mul_of_nonneg_left hK (by positivity)
    have heq : 2 / Real.pi * (2 * Real.tanh 2 ^ 2 - 1) * (Real.pi / 2) =
        2 * Real.tanh 2 ^ 2 - 1 := by
      field_simp
    linarith
  have hval : ene_exact 1 = -1 * Real.cosh 2 *
      (1 + 2 / Real.pi * (2 * Real.tanh 2 ^ 2 - 1) *
        ellipk (4 * Real.sinh 2 ^ 2 / Real.cosh 2 ^ 4)) / Real.sinh 2 := by
    unfold ene_exact
    norm_num
  rw [hval]
  set A := 1 + 2 / Real.pi * (2 * Real.tanh 2 ^ 2 - 1) *
      ellipk (4 * Real.sinh 2 ^ 2 / Real.cosh 2 ^ 4) with hAdef
  have hA : (1.55 : ℝ) ≤ A := by
    rw [hAdef]
    linarith
  clear_value A
  have key : A * Real.sinh 2 ≤ Real.cosh 2 * A := by
    nlinarith [mul_nonneg (by linarith : (0 : ℝ) ≤ A)
      (by linarith : (0 : ℝ) ≤ Real.cosh 2 - Real.sinh 2)]
  have hdiv : A ≤ Real.cosh 2 * A / Real.sinh 2 := (le_div_iff hspos).mpr key
  have hfin : -1 * Real.cosh 2 * A / Real.sinh 2 = -(Real.cosh 2 * A / Real.sinh 2) := by
    ring
  rw [hfin]
  linarith

/-- Claim C6, counterexample: at β = 1 the exact internal energy is below
−1.5 (numerically ≈ −1.9979), so it does not match −1.41 to 3 significant
figures; −1.41 ≈ −√2 is the value at the critical coupling, not at β = 1. -/
theorem claim_C6_counterexample :
    ene_exact 1 < -1.5 ∧ ene_exact 1 ∉ Set.Icc (-1.415 : ℝ) (-1.405) := by
  refine ⟨ene_exact_one_lt, ?_⟩
  intro hmem
  rw [Set.mem_Icc] at hmem
  have := ene_exact_one_lt
  obtain ⟨h1, h2⟩ := hmem
  linarith

/-- Claim C6, amended: `ene_exact` equals the spec's closed form
`−J·cosh(2J)·(1 + (2/π)(2·tanh(2J)² − 1)·K(k)) / sinh(2J)` with
`k = 4·sinh(2J)²/cosh(2J)⁴`; but at β = 1 its value is below −1.5
(≈ −1.9979), not ≈ −1.41 — the latter is the critical-point value. -/
theorem claim_C6_amended :
    (∀ J : ℝ, ene_exact J = internal_energy_exact_spec J) ∧ ene_exact 1 < -1.5 :=
  ⟨fun _ => rfl, ene_exact_one_lt⟩


/-! ## Claim C4: the piecewise exact magnetization -/

theorem sum_bound : (2.414213562373096 : ℝ) <
    ∑ i ∈ Finset.range 18, (0.881373587019544 : ℝ) ^ i / (Nat.factorial i : ℝ) := by
  simp only [Finset.sum_range_succ, Finset.sum_range_zero, Nat.factorial]
  norm_num

theorem sinh_y_gt_one : 1 < Real.sinh (0.881373587019544 : ℝ) := by
  have ht : (2.414213562373096 : ℝ) < Real.exp 0.881373587019544 :=
    lt_of_lt_of_le sum_bound (Real.sum_le_exp_of_nonneg (by norm_num) 18)
  have htpos : (0 : ℝ) < Real.exp 0.881373587019544 := Real.exp_pos _
  rw [Real.sinh_eq, Real.exp_neg]
  have hinv : (Real.exp 0.881373587019544)⁻¹ < (2.414213562373096 : ℝ)⁻¹ := by
    have h := one_div_lt_one_div_of_lt (by norm_num : (0 : ℝ) < 2.414213562373096) ht
    rwa [one_div, one_div] at h
  have hs : (2 : ℝ) < 2.414213562373096 - (2.414213562373096 : ℝ)⁻¹ := by norm_num
  linarith

theorem sinh_2c_gt_one : 1 < Real.sinh (2 * (0.440686793509772 : ℝ)) := by
  rw [show (2 : ℝ) * 0.440686793509772 = 0.881373587019544 by norm_num]
  exact sinh_y_gt_one

theorem one_lt_sinh_2beta {beta : ℝ} (h : (0.440686793509772 : ℝ) ≤ beta) :
    1 < Real.sinh (2 * beta) :=
  lt_of_lt_of_le sinh_2c_gt_one (Real.sinh_le_sinh.mpr (by linarith))

theorem base_pos {beta : ℝ} (h : (0.440686793509772 : ℝ) ≤ beta) :
    0 < 1 - 1 / Real.sinh (2 * beta) ^ 4 := by
  have h1 := one_lt_sinh_2beta h
  have h4 : 1 < Real.sinh (2 * beta) ^ 4 := one_lt_pow₀ h1 (by norm_num)
  have h5 : 1 / Real.sinh (2 * beta) ^ 4 < 1 := by
    rw [div_lt_one (by linarith)]
    linarith
  linarith

theorem mag_below {beta : ℝ} (h : beta < 0.440686793509772) : magnetization_exact beta = 0 :=
  if_pos h

theorem mag_above {beta : ℝ} (h : (0.440686793509772 : ℝ) ≤ beta) :
    magnetization_exact beta = (1 - 1 / Real.sinh (2 * beta) ^ 4) ^ ((1 : ℝ) / 8) :=
  if_neg (not_lt.mpr h)

theorem mag_monotone : Monotone magnetization_exact := by
  intro a b hab
  by_cases hb : b < 0.440686793509772
  · rw [mag_below (lt_of_le_of_lt hab hb), mag_below hb]
  · push_neg at hb
    rw [mag_above hb]
    have hbase_b := base_pos hb
    by_cases ha : a < 0.440686793509772
    · rw [mag_below ha]
      exact Real.rpow_nonneg (le_of_lt hbase_b) _
    · push_neg at ha
      rw [mag_above ha]
      apply Real.rpow_le_rpow (le_of_lt (base_pos ha)) ?_ (by norm_num)
      have hsa := one_lt_sinh_2beta ha
      have hsb : Real.sinh (2 * a) ≤ Real.sinh (2 * b) := Real.sinh_le_sinh.mpr (by linarith)
      have hpa : (0 : ℝ) < Real.sinh (2 * a) ^ 4 := pow_pos (by linarith) 4
      have hple : Real.sinh (2 * a) ^ 4 ≤ Real.sinh (2 * b) ^ 4 :=
        pow_le_pow_left₀ (by linarith) hsb 4
      have hd : 1 / Real.sinh (2 * b) ^ 4 ≤ 1 / Real.sinh (2 * a) ^ 4 :=
        one_div_le_one_div_of_le hpa hple
      linarith

theorem mag_tendsto : Tendsto magnetization_exact atTop (𝓝 1) := by
  have hsinh : Tendsto (fun beta : ℝ => Real.sinh (2 * beta)) atTop atTop := by
    have hf1 : Tendsto (fun beta : ℝ => (Real.exp (2 * beta) + (-1)) / 2) atTop atTop := by
      have h1 : Tendsto (fun beta : ℝ => 2 * beta) atTop atTop :=
        tendsto_id.const_mul_atTop (by norm_num)
      have h2 : Tendsto (fun beta : ℝ => Real.exp (2 * beta)) atTop atTop :=
        Real.tendsto_exp_atTop.comp h1
      have h3 := tendsto_atTop_add_const_right atTop (-1 : ℝ) h2
      exact h3.atTop_div_const (by norm_num)
    apply tendsto_atTop_mono' atTop ?_ hf1
    filter_upwards [eventually_ge_atTop (0 : ℝ)] with beta hβ
    rw [Real.sinh_eq]
    have hle : Real.exp (-(2 * beta)) ≤ 1 := by
      calc Real.exp (-(2 * beta)) ≤ Real.exp 0 := Real.exp_le_exp.mpr (by linarith)
        _ = 1 := Real.exp_zero
    linarith
  have hpow : Tendsto (fun beta : ℝ => Real.sinh (2 * beta) ^ 4) atTop atTop :=
    (tendsto_pow_atTop (by norm_num : (4 : ℕ) ≠ 0)).comp hsinh
  have hinv : Tendsto (fun beta : ℝ => 1 / Real.sinh (2 * beta) ^ 4) atTop (𝓝 0) := by
    simpa [one_div] using tendsto_inv_atTop_zero.comp hpow
  have hbase : Tendsto (fun beta : ℝ => 1 - 1 / Real.sinh (2 * beta) ^ 4) atTop (𝓝 1) := by
    have hc : Tendsto (fun _ : ℝ => (1 : ℝ)) atTop (𝓝 1) := tendsto_const_nhds
    have h := hc.sub hinv
    simpa using h
  have hrpow : Tendsto (fun x : ℝ => x ^ ((1 : ℝ) / 8)) (𝓝 1) (𝓝 1) := by
    have hc := Real.continuousAt_rpow_const 1 ((1 : ℝ) / 8) (Or.inl one_ne_zero)
    have h := hc.tendsto
    rwa [Real.one_rpow] at h
  have hg : Tendsto (fun beta : ℝ => (1 - 1 / Real.sinh (2 * beta) ^ 4) ^ ((1 : ℝ) / 8))
      atTop (𝓝 1) := hrpow.comp hbase
  refine Tendsto.congr' ?_ hg
  filter_upwards [eventually_ge_atTop (0.440686793509772 : ℝ)] with beta hβ
  exact (mag_above hβ).symm

/-- Claim C4, counterexample: `magnetization_exact` is NOT continuous at the
literal threshold 0.440686793509772. The literal is strictly greater than the
exact critical point asinh(1)/2 = 0.44068679350977151…, so the right-hand
value at the threshold is strictly positive (≈ 0.0165) while the function is
0 everywhere below it. -/
theorem claim_C4_counterexample :
    0 < magnetization_exact 0.440686793509772 ∧
    ¬ ContinuousAt magnetization_exact 0.440686793509772 := by
  have hpos : 0 < magnetization_exact 0.440686793509772 := by
    rw [mag_above le_rfl]
    exact Real.rpow_pos_of_pos (base_pos le_rfl) _
  refine ⟨hpos, ?_⟩
  intro hcont
  have h1 : Tendsto magnetization_exact (𝓝[<] (0.440686793509772 : ℝ))
      (𝓝 (magnetization_exact 0.440686793509772)) := hcont.continuousWithinAt
  have h2 : Tendsto magnetization_exact (𝓝[<] (0.440686793509772 : ℝ)) (𝓝 0) := by
    refine Tendsto.congr' ?_ tendsto_const_nhds
    filter_upwards [self_mem_nhdsWithin] with beta hβ
    exact (mag_below hβ).symm
  have h0 := tendsto_nhds_unique h2 h1
  linarith

/-- Claim C4, amended: `magnetization_exact` returns 0 strictly below the
literal threshold and `(1 − sinh(2β)⁻⁴)^(1/8)` at and above it; the function
is monotonically increasing and tends to 1 as β → ∞. (It is however not
continuous at the literal threshold, which exceeds the exact critical
point — see the counterexample.) -/
theorem claim_C4_amended :
    (∀ beta : ℝ, beta < 0.440686793509772 → magnetization_exact beta = 0) ∧
    (∀ beta : ℝ, (0.440686793509772 : ℝ) ≤ beta →
        magnetization_exact beta = (1 - 1 / Real.sinh (2 * beta) ^ 4) ^ ((1 : ℝ) / 8)) ∧
    Monotone magnetization_exact ∧
    Tendsto magnetization_exact atTop (𝓝 1) :=
  ⟨fun _ h => mag_below h, fun _ h => mag_above h, mag_monotone, mag_tendsto⟩

/-- Claim C4 witness: the amended claim evaluated at β = 0.4 (below the
threshold) and β = 1 (above it). -/
theorem claim_C4_witness :
    magnetization_exact 0.4 = 0 ∧
    magnetization_exact 1 = (1 - 1 / Real.sinh (2 * 1) ^ 4) ^ ((1 : ℝ) / 8) :=
  ⟨claim_C4_amended.1 0.4 (by norm_num), claim_C4_amended.2.1 1 (by norm_num)⟩

/-- Claim C7 witness: the concrete runs `rH` (no level1), `rW` (level1,
gamma = 3) and `rV` (level1, gamma = 1) get the labels "HMC",
"MLHMC  W-cycle" and "MLHMC V-cycle" respectively. -/
theorem claim_C7_witness :
    runLabel rH = hmcLabel ∧ runLabel rW = wLabel ∧ runLabel rV = vLabel :=
  ⟨(claim_C7.1 rH rfl).1, claim_C7.2.2.1 rW rfl (by decide),
    claim_C7.2.2.2.1 rV rfl rfl⟩
